import Mathlib

/-!
# Verification of dk-face-extractor

A shallow embedding of the core of the `dk-face-extractor` repository
(`src/int2base32.py`, `src/dk_face_extractor.py`, `src/cleanup.py`) together
with proofs about the embedded definitions.

Modelling conventions:

* Python non-negative machine integers are modelled as `ℕ`; values that the
  code may make negative (the result of `str.find`, which returns `-1` on a
  missing character) are modelled as `ℤ`.
* Python strings are modelled as `List Char` where character-level structure
  matters (the codec and the regular-expression scan) and as `String` where
  they are only concatenated (paths).
* The floating-point arithmetic of `save_face` (`ceil(sqrt(w*h))`, halves and
  tenths of pixel counts) is modelled by exact rational arithmetic: for the
  region sizes the program handles, IEEE doubles represent every intermediate
  value closely enough that `ceil` of the float equals `ceil` of the exact
  rational.

The file is organised as definitions first, then the proofs about them.
-/

/-! ## Definitions: `src/int2base32.py` -/

/-- The 32-symbol alphabet `BASE32ALPHABET = "0123456789ABCDEFGHIJKLMNOPQRSTUV"`
of `src/int2base32.py`, as a character list. -/
def BASE32ALPHABET : List Char := "0123456789ABCDEFGHIJKLMNOPQRSTUV".toList

/-- The loop of `int2base32` (`src/int2base32.py` lines 9-16): it appends
base-32 digits least-significant first; the final `res[::-1]` reversal is done
by `int2base32` below.  `res += BASE32ALPHABET[val % 32]; val //= 32` until
`val < 32`, when `res += BASE32ALPHABET[val]`. -/
def int2base32Digits (val : ℕ) : List Char :=
  if h : val < 32 then [BASE32ALPHABET.getD val ' ']
  else BASE32ALPHABET.getD (val % 32) ' ' :: int2base32Digits (val / 32)
  termination_by val
  decreasing_by exact Nat.div_lt_self (by omega) (by omega)

/-- `int2base32` (`src/int2base32.py` lines 8-17): base-32 rendering of a
non-negative integer, most significant digit first (`return res[::-1]`). -/
def int2base32 (val : ℕ) : List Char := (int2base32Digits val).reverse

/-- `BASE32ALPHABET.find(char)` (`src/int2base32.py` line 23): the first index
of `char` in the alphabet, or `-1` when the character does not occur.  Python's
`str.find` never raises. -/
def b32find (c : Char) : ℤ :=
  match BASE32ALPHABET.findIdx? (fun x => x = c) with
  | some i => (i : ℤ)
  | none => -1

/-- `base32_to_int` (`src/int2base32.py` lines 20-24):
`res += BASE32ALPHABET.find(char) * 32**i` over `enumerate(reversed(val))`. -/
def base32_to_int (val : List Char) : ℤ :=
  ((val.reverse.enum).map (fun p => b32find p.2 * 32 ^ p.1)).sum

/-- Python's `int` applied to a non-empty decimal digit string, as used by
`encode_region` (`src/int2base32.py` line 5) and `parse_rect`
(`src/dk_face_extractor.py` line 272). -/
def intOfDigits (s : List Char) : ℕ :=
  s.foldl (fun acc c => acc * 10 + (c.toNat - '0'.toNat)) 0

/-- `encode_region` (`src/int2base32.py` lines 4-5):
`int2base32(int("".join(map(str, val))))` — concatenate the decimal renderings
of the four components and re-render the resulting integer in base 32. -/
def encode_region (val : ℕ × ℕ × ℕ × ℕ) : List Char :=
  int2base32 (intOfDigits
    (Nat.toDigits 10 val.1 ++ Nat.toDigits 10 val.2.1 ++
     Nat.toDigits 10 val.2.2.1 ++ Nat.toDigits 10 val.2.2.2))

/-- Shorthand for the summand of `base32_to_int`. -/
def b32term (p : ℕ × Char) : ℤ := b32find p.2 * 32 ^ p.1

/-! ## Definitions: crop geometry
(`src/dk_face_extractor.py`, `save_face`, lines 221-247) -/

/-- Linear search for the least `s` with `n ≤ s * s`, starting at `s`; the
fuel argument makes the recursion structural so concrete values reduce in the
kernel. -/
def ceilSqrtFrom (n : ℕ) : ℕ → ℕ → ℕ
  | 0, s => s
  | fuel + 1, s => if n ≤ s * s then s else ceilSqrtFrom n fuel (s + 1)

/-- `ceil(sqrt(n))` over the exact reals: the least `s : ℕ` with `n ≤ s * s`,
modelling `ceil(sqrt(width * height))` of `src/dk_face_extractor.py` line 226
(for the region sizes the program handles, the IEEE double computation agrees
with the exact one). -/
def ceilSqrt (n : ℕ) : ℕ := ceilSqrtFrom n (n + 1) 0

/-- The crop box computed by `save_face` (`src/dk_face_extractor.py` lines
221-247): `square_width = ceil(sqrt(width * height))`,
`center = (x + width / 2, y + height / 2)`, `margin = square_width / 10`,
edges `center ∓ square_width / 2 ∓ margin`, then each edge is clamped
(`x1 if x1 > 0 else 0`, `x2 if x2 < image.size[0] else image.size[0]`, and
likewise for `y`) and rounded with `ceil`. -/
def save_face_box (face_region : ℕ × ℕ × ℕ × ℕ) (imgW imgH : ℕ) :
    ℤ × ℤ × ℤ × ℤ :=
  let x : ℚ := face_region.1
  let y : ℚ := face_region.2.1
  let width : ℚ := face_region.2.2.1
  let height : ℚ := face_region.2.2.2
  let square_width : ℚ := (ceilSqrt (face_region.2.2.1 * face_region.2.2.2) : ℕ)
  let margin : ℚ := square_width / 10
  let x1 : ℚ := x + width / 2 - square_width / 2 - margin
  let y1 : ℚ := y + height / 2 - square_width / 2 - margin
  let x2 : ℚ := x + width / 2 + square_width / 2 + margin
  let y2 : ℚ := y + height / 2 + square_width / 2 + margin
  (⌈if x1 > 0 then x1 else 0⌉, ⌈if y1 > 0 then y1 else 0⌉,
   ⌈if x2 < (imgW : ℚ) then x2 else (imgW : ℚ)⌉,
   ⌈if y2 < (imgH : ℚ) then y2 else (imgH : ℚ)⌉)

/-- Modelled from the spec: the crop box described by the specification's
Crop Geometry contract — edges `center ± (s/2 + margin)`, each edge rounded up
with `ceil` to an integer and clamped to `[0, image_width]` (x axis) and
`[0, image_height]` (y axis). -/
def specCropBox (face_region : ℕ × ℕ × ℕ × ℕ) (imgW imgH : ℕ) :
    ℤ × ℤ × ℤ × ℤ :=
  let x : ℚ := face_region.1
  let y : ℚ := face_region.2.1
  let width : ℚ := face_region.2.2.1
  let height : ℚ := face_region.2.2.2
  let s : ℚ := (ceilSqrt (face_region.2.2.1 * face_region.2.2.2) : ℕ)
  let margin : ℚ := s / 10
  let cx : ℚ := x + width / 2
  let cy : ℚ := y + height / 2
  (max 0 (min ⌈cx - (s / 2 + margin)⌉ (imgW : ℤ)),
   max 0 (min ⌈cy - (s / 2 + margin)⌉ (imgH : ℤ)),
   max 0 (min ⌈cx + (s / 2 + margin)⌉ (imgW : ℤ)),
   max 0 (min ⌈cy + (s / 2 + margin)⌉ (imgH : ℤ)))

/-! ## Definitions: region parsing
(`src/dk_face_extractor.py`, `parse_rect`, lines 262-272)

`parse_rect` runs `re.findall` with the pattern `\w*="(\d*)"` over the region
string and converts every capture with `int`.  The scan of `re.findall` for
this pattern is embedded directly: at each position, a greedy run of word
characters must be followed by `="`, then a greedy run of digits (the capture)
and a closing `"`; because `=` is not a word character and `"` is not a digit,
this specific pattern never backtracks, so the embedding is exact for it.  On
failure the scan advances one character; on success it resumes after the
match. -/

/-- Python's `\w` for the ASCII strings the program handles: letters, digits
or underscore. -/
def isWordChar (c : Char) : Bool := c.isAlphanum || c = '_'

/-- One attempted match of `\w*="(\d*)"` at the head of `s`: returns the
capture group and the remainder after the match, or `none`. -/
def tryMatch (s : List Char) : Option (List Char × List Char) :=
  if (s.dropWhile isWordChar).take 2 = ['=', '"'] then
    if (((s.dropWhile isWordChar).drop 2).dropWhile Char.isDigit).take 1 = ['"'] then
      some (((s.dropWhile isWordChar).drop 2).takeWhile Char.isDigit,
        (((s.dropWhile isWordChar).drop 2).dropWhile Char.isDigit).drop 1)
    else none
  else none

lemma length_dropWhile_le (p : Char → Bool) (l : List Char) :
    (l.dropWhile p).length ≤ l.length := by
  induction l with
  | nil => simp
  | cons c cs ih =>
      rw [List.dropWhile_cons]
      split
      · exact Nat.le_succ_of_le ih
      · exact le_refl _

lemma tryMatch_some_length (s : List Char) (pr : List Char × List Char)
    (h : tryMatch s = some pr) : pr.2.length < s.length := by
  unfold tryMatch at h
  split_ifs at h with h1 h2
  · have e1 : (s.dropWhile isWordChar).length ≤ s.length := length_dropWhile_le _ _
    have e2 : ((s.dropWhile isWordChar).take 2).length = 2 := by rw [h1]; rfl
    rw [List.length_take] at e2
    have e3 : (((s.dropWhile isWordChar).drop 2).dropWhile Char.isDigit).length ≤
        ((s.dropWhile isWordChar).drop 2).length := length_dropWhile_le _ _
    have e6 : ((s.dropWhile isWordChar).drop 2).length =
        (s.dropWhile isWordChar).length - 2 := List.length_drop 2 _
    have e4 : ((((s.dropWhile isWordChar).drop 2).dropWhile Char.isDigit).take 1).length = 1 := by
      rw [h2]; rfl
    rw [List.length_take] at e4
    cases h
    simp only [List.length_drop]
    omega

/-- `re.findall` of the pattern `\w*="(\d*)"` (`src/dk_face_extractor.py`
line 271-272): scan left to right, collecting non-overlapping matches'
capture groups. -/
def findall (s : List Char) : List (List Char) :=
  match h : tryMatch s with
  | some capRest => capRest.1 :: findall capRest.2
  | none =>
    match s with
    | [] => []
    | _ :: cs => findall cs
  termination_by s.length
  decreasing_by
  · exact tryMatch_some_length s capRest h
  · simp

/-- `parse_rect` (`src/dk_face_extractor.py` lines 262-272):
`list(map(int, RE.findall(rect)))`. -/
def parse_rect (rect : List Char) : List ℕ := (findall rect).map intOfDigits

/-- A well-formed region string
`<rect a₁="v₁" a₂="v₂" a₃="v₃" a₄="v₄"/>` with the four attribute names and
quoted values supplied as parameters. -/
def rect_region_string (a₁ v₁ a₂ v₂ a₃ v₃ a₄ v₄ : List Char) : List Char :=
  '<' :: 'r' :: 'e' :: 'c' :: 't' :: ' ' ::
    (a₁ ++ '=' :: '"' :: (v₁ ++ '"' :: (' ' ::
      (a₂ ++ '=' :: '"' :: (v₂ ++ '"' :: (' ' ::
        (a₃ ++ '=' :: '"' :: (v₃ ++ '"' :: (' ' ::
          (a₄ ++ '=' :: '"' :: (v₄ ++ '"' :: ('/' :: '>' :: []))))))))))))

/-! ## Definitions: manifest merge
(`src/dk_face_extractor.py`, `main`, lines 102-113)

Text files are modelled by the list of lines that `readlines` returns (the
manifest is written with every element newline-terminated, so lines determine
the file contents up to the arbitrary iteration order of the Python set). -/

/-- Line 102: `saved_faces_paths = list([str(r.get()) + "\n" for r in res])` —
the output path of every job of this run, newline-terminated. -/
def saved_faces_paths (results : List String) : List String :=
  results.map (fun r => r ++ "\n")

/-- Lines 106-110: the prior manifest's lines as a set — `set(f.readlines())`
when the file exists (`some lines`), the empty set otherwise (`none`). -/
def read_prior_manifest (file : Option (List String)) : Finset String :=
  match file with
  | some ls => ls.toFinset
  | none => ∅

/-- Lines 111-113: `saved_faces.update(saved_faces_paths)` followed by
`f.writelines(saved_faces)` — the set of lines of the manifest file after the
run. -/
def manifest_after_run (file : Option (List String)) (results : List String) :
    Finset String :=
  read_prior_manifest file ∪ (saved_faces_paths results).toFinset

/-! ## Definitions: `save_face` control flow and filesystem effects
(`src/dk_face_extractor.py`, lines 196-259)

`save_face` is modelled as a function from its arguments — plus the boolean
result of the `output_path.exists()` check and the decoded image's dimensions
— to its returned path together with the ordered list of filesystem/image
effects it performs. -/

/-- One observable effect of `save_face`:
directory creation (line 208), image decode (line 219), crop (line 249),
resize (line 254), image write (line 256). -/
inductive FsOp where
  | mkdir (p : String)
  | decodeImage (p : String)
  | crop (box : ℤ × ℤ × ℤ × ℤ)
  | resize (n : ℕ)
  | writeImage (p : String)
  deriving DecidableEq

/-- Does the effect belong to the expensive decode/crop/write work that C4
says is skipped? -/
def FsOp.heavyWork : FsOp → Bool
  | FsOp.decodeImage _ => true
  | FsOp.crop _ => true
  | FsOp.writeImage _ => true
  | _ => false

/-- `save_face` (`src/dk_face_extractor.py` lines 196-259).  Arguments mirror
the source (`image_path` reduced to its stem, which feeds the output name;
`output_path_exists` is the oracle for line 215's `output_path.exists()`;
`imgW`/`imgH` are the decoded image's size).  Returns the path reported to the
orchestrator and the ordered effect list. -/
def save_face (image_path_stem : String) (face_region : ℕ × ℕ × ℕ × ℕ)
    (tag_name : String) (output_dir : String) (resize_to : ℕ)
    (overwrite : Bool) (output_path_exists : Bool) (imgW imgH : ℕ) :
    String × List FsOp :=
  let tag_folder_path := output_dir ++ "/" ++ tag_name
  let region_base32 := String.mk (encode_region face_region)
  let output_name := image_path_stem ++ "-" ++ region_base32 ++ ".png"
  let output_path := tag_folder_path ++ "/" ++ output_name
  if !overwrite && output_path_exists then
    (output_path, [FsOp.mkdir tag_folder_path])
  else
    (output_path,
      [FsOp.mkdir tag_folder_path, FsOp.decodeImage image_path_stem,
        FsOp.crop (save_face_box face_region imgW imgH)] ++
      (if resize_to ≠ 0 then [FsOp.resize resize_to] else []) ++
      [FsOp.writeImage output_path])

/-! ## Codec lemmas -/

lemma b32find_getD (d : ℕ) (hd : d < 32) :
    b32find (BASE32ALPHABET.getD d ' ') = (d : ℤ) := by
  revert hd
  revert d
  decide

lemma b32sum_enumFrom_succ (l : List Char) (n : ℕ) :
    ((List.enumFrom (n + 1) l).map b32term).sum =
      32 * ((List.enumFrom n l).map b32term).sum := by
  induction l generalizing n with
  | nil => simp
  | cons c cs ih =>
      simp only [List.enumFrom_cons, List.map_cons, List.sum_cons, ih (n + 1),
        b32term]
      ring

lemma b32sum_digits (v : ℕ) :
    (((int2base32Digits v).enum).map b32term).sum = (v : ℤ) := by
  induction v using Nat.strong_induction_on with
  | _ v ih =>
      rw [int2base32Digits]
      by_cases h : v < 32
      · simp only [h, dif_pos, List.enum_cons, List.enumFrom_nil, List.map_cons,
          List.map_nil, List.sum_cons, List.sum_nil, add_zero, b32term, pow_zero,
          mul_one]
        exact b32find_getD v h
      · simp only [h, dif_neg, not_false_iff]
        rw [List.enum_cons]
        simp only [List.map_cons, List.sum_cons]
        rw [show (1 : ℕ) = 0 + 1 from rfl, b32sum_enumFrom_succ,
          ← List.enum_eq_enumFrom, ih (v / 32) (Nat.div_lt_self (by omega) (by omega))]
        simp only [b32term, pow_zero, mul_one]
        rw [b32find_getD (v % 32) (Nat.mod_lt _ (by omega))]
        push_cast
        omega

/-- C5: decode is a left inverse of encode on `ℕ`. -/
theorem base32_roundtrip (n : ℕ) : base32_to_int (int2base32 n) = (n : ℤ) := by
  unfold base32_to_int int2base32
  rw [List.reverse_reverse]
  exact b32sum_digits n

/-- C9: the loop of `int2base32` terminates on every non-negative input: each
iteration either ends (`val < 32`) or strictly decreases `val` by floor
division by 32, so `int2base32Digits` exists as a total function satisfying
the loop's defining recurrence. -/
theorem int2base32_total :
    (∀ v : ℕ, 32 ≤ v → v / 32 < v) ∧
      (∀ v : ℕ, int2base32Digits v =
        if v < 32 then [BASE32ALPHABET.getD v ' ']
        else BASE32ALPHABET.getD (v % 32) ' ' :: int2base32Digits (v / 32)) := by
  constructor
  · intro v hv
    exact Nat.div_lt_self (by omega) (by omega)
  · intro v
    rw [int2base32Digits]
    by_cases h : v < 32 <;> simp [h]

/-- Witness for C9 at concrete inputs. -/
theorem int2base32_total_witness :
    33 / 32 < 33 ∧
      (int2base32Digits 40 =
        if 40 < 32 then [BASE32ALPHABET.getD 40 ' ']
        else BASE32ALPHABET.getD (40 % 32) ' ' :: int2base32Digits (40 / 32)) :=
  ⟨int2base32_total.1 33 (by decide), int2base32_total.2 40⟩

/-- C7 counterexample: for the out-of-alphabet token `"z"`, `base32_to_int`
returns the ordinary integer `-1` instead of signalling a decode error —
Python's `str.find` yields `-1` for a missing character and the code never
checks for it. -/
theorem base32_to_int_no_error : base32_to_int ['z'] = -1 := by decide

lemma b32find_of_not_mem (c : Char) (h : c ∉ BASE32ALPHABET) : b32find c = -1 := by
  unfold b32find
  rw [List.findIdx?_eq_none_iff.mpr]
  intro x hx
  simp only [decide_eq_false_iff_not]
  intro hxc
  exact h (hxc ▸ hx)

/-- C7 (amended): a token containing a character outside the 32-symbol
alphabet does not produce an error; the lookup returns `-1`, which enters the
sum as `-1 * 32 ^ i`.  In particular a single out-of-alphabet character
decodes to the ordinary integer `-1`. -/
theorem base32_to_int_invalid_char (c : Char) (h : c ∉ BASE32ALPHABET) :
    base32_to_int [c] = -1 := by
  unfold base32_to_int
  simp [List.enum_cons, b32find_of_not_mem c h]

/-- Witness for the amended C7 at the concrete character `'x'`. -/
theorem base32_to_int_invalid_char_witness :
    'x' ∉ BASE32ALPHABET ∧ base32_to_int ['x'] = -1 :=
  ⟨by decide, base32_to_int_invalid_char 'x' (by decide)⟩

/-- C8: `encode_region` is not injective: the distinct regions `(1, 23, 4, 5)`
and `(12, 3, 4, 5)` both digit-concatenate to `"12345"` and therefore receive
the same base-32 token. -/
theorem encode_region_collision :
    encode_region (1, 23, 4, 5) = encode_region (12, 3, 4, 5) ∧
      ((1, 23, 4, 5) : ℕ × ℕ × ℕ × ℕ) ≠ (12, 3, 4, 5) := by
  constructor
  · unfold encode_region
    have h : intOfDigits
        (Nat.toDigits 10 1 ++ Nat.toDigits 10 23 ++
         Nat.toDigits 10 4 ++ Nat.toDigits 10 5) =
        intOfDigits
        (Nat.toDigits 10 12 ++ Nat.toDigits 10 3 ++
         Nat.toDigits 10 4 ++ Nat.toDigits 10 5) := by decide
    simpa using congrArg int2base32 h
  · decide

/-! ## Crop geometry lemmas -/

lemma ceilSqrtFrom_spec (n : ℕ) :
    ∀ fuel s : ℕ, n ≤ (s + fuel) * (s + fuel) →
      n ≤ ceilSqrtFrom n fuel s * ceilSqrtFrom n fuel s ∧
        s ≤ ceilSqrtFrom n fuel s ∧
        ∀ t, s ≤ t → n ≤ t * t → ceilSqrtFrom n fuel s ≤ t := by
  intro fuel
  induction fuel with
  | zero =>
      intro s hs
      simp only [Nat.add_zero] at hs
      exact ⟨hs, le_refl s, fun t ht _ => ht⟩
  | succ f ih =>
      intro s hs
      by_cases h : n ≤ s * s
      · simp only [ceilSqrtFrom]
        rw [if_pos h]
        exact ⟨h, le_refl s, fun t ht _ => ht⟩
      · simp only [ceilSqrtFrom]
        rw [if_neg h]
        have hs' : n ≤ (s + 1 + f) * (s + 1 + f) := by
          have : s + 1 + f = s + (f + 1) := by omega
          rw [this]; exact hs
        obtain ⟨h1, h2, h3⟩ := ih (s + 1) hs'
        refine ⟨h1, by omega, fun t ht hnt => ?_⟩
        have : s + 1 ≤ t := by
          rcases Nat.lt_or_ge s t with hlt | hge
          · omega
          · exfalso
            exact h (hnt.trans (Nat.mul_le_mul hge hge))
        exact h3 t this hnt

lemma ceilSqrt_spec (n : ℕ) :
    n ≤ ceilSqrt n * ceilSqrt n ∧ ∀ t, n ≤ t * t → ceilSqrt n ≤ t := by
  have h0 : n ≤ (0 + (n + 1)) * (0 + (n + 1)) := by nlinarith
  obtain ⟨h1, _, h3⟩ := ceilSqrtFrom_spec n (n + 1) 0 h0
  exact ⟨h1, fun t ht => h3 t (Nat.zero_le t) ht⟩

lemma ceilSqrt_pos (n : ℕ) (h : 1 ≤ n) : 1 ≤ ceilSqrt n := by
  rcases Nat.eq_zero_or_pos (ceilSqrt n) with h0 | h1
  · exfalso
    have := (ceilSqrt_spec n).1
    rw [h0] at this
    omega
  · exact h1

lemma ceil_ite_lower (q : ℚ) : ⌈if q > 0 then q else 0⌉ = max 0 ⌈q⌉ := by
  by_cases h : q > 0
  · rw [if_pos h, max_eq_right (Int.ceil_nonneg h.le)]
  · have hq : ⌈q⌉ ≤ 0 := Int.ceil_le.mpr (by exact_mod_cast not_lt.mp h)
    rw [if_neg h, max_eq_left hq]
    exact Int.ceil_zero

lemma ceil_ite_upper (q : ℚ) (n : ℕ) :
    ⌈if q < (n : ℚ) then q else (n : ℚ)⌉ = min ⌈q⌉ (n : ℤ) := by
  by_cases h : q < (n : ℚ)
  · have hq : ⌈q⌉ ≤ (n : ℤ) := Int.ceil_le.mpr (by exact_mod_cast h.le)
    rw [if_pos h, min_eq_left hq]
  · have hn : (n : ℤ) ≤ ⌈q⌉ := by
      have h1 : ((n : ℤ) : ℚ) ≤ q := by exact_mod_cast not_lt.mp h
      exact_mod_cast h1.trans (Int.le_ceil q)
    rw [if_neg h, min_eq_right hn]
    exact Int.ceil_natCast n

lemma lower_edge_eq (q : ℚ) (B : ℕ) (hq : q ≤ (B : ℚ)) :
    ⌈if q > 0 then q else 0⌉ = max 0 (min ⌈q⌉ (B : ℤ)) := by
  rw [ceil_ite_lower, min_eq_left]
  exact Int.ceil_le.mpr (by exact_mod_cast hq)

lemma upper_edge_eq (q : ℚ) (B : ℕ) (hq : 0 ≤ q) :
    ⌈if q < (B : ℚ) then q else (B : ℚ)⌉ = max 0 (min ⌈q⌉ (B : ℤ)) := by
  rw [ceil_ite_upper, max_eq_right]
  exact le_min (Int.ceil_nonneg hq) (by positivity)

lemma box_eq_spec (x y w h W H : ℕ) (hxW : x + w ≤ W) (hyH : y + h ≤ H) :
    save_face_box (x, y, w, h) W H = specCropBox (x, y, w, h) W H := by
  have hs0 : (0 : ℚ) ≤ ((ceilSqrt (w * h) : ℕ) : ℚ) := by positivity
  have hw0 : (0 : ℚ) ≤ (w : ℚ) := by positivity
  have hh0 : (0 : ℚ) ≤ (h : ℚ) := by positivity
  have hx0 : (0 : ℚ) ≤ (x : ℚ) := by positivity
  have hy0 : (0 : ℚ) ≤ (y : ℚ) := by positivity
  have hxW' : (x : ℚ) + w ≤ W := by exact_mod_cast hxW
  have hyH' : (y : ℚ) + h ≤ H := by exact_mod_cast hyH
  simp only [save_face_box, specCropBox, Prod.mk.injEq]
  refine ⟨?_, ?_, ?_, ?_⟩
  · rw [show (x : ℚ) + (w : ℚ) / 2 - (((ceilSqrt (w * h) : ℕ) : ℚ) / 2 +
        ((ceilSqrt (w * h) : ℕ) : ℚ) / 10) =
        (x : ℚ) + (w : ℚ) / 2 - ((ceilSqrt (w * h) : ℕ) : ℚ) / 2 -
        ((ceilSqrt (w * h) : ℕ) : ℚ) / 10 from by ring]
    exact lower_edge_eq _ W (by linarith)
  · rw [show (y : ℚ) + (h : ℚ) / 2 - (((ceilSqrt (w * h) : ℕ) : ℚ) / 2 +
        ((ceilSqrt (w * h) : ℕ) : ℚ) / 10) =
        (y : ℚ) + (h : ℚ) / 2 - ((ceilSqrt (w * h) : ℕ) : ℚ) / 2 -
        ((ceilSqrt (w * h) : ℕ) : ℚ) / 10 from by ring]
    exact lower_edge_eq _ H (by linarith)
  · rw [show (x : ℚ) + (w : ℚ) / 2 + (((ceilSqrt (w * h) : ℕ) : ℚ) / 2 +
        ((ceilSqrt (w * h) : ℕ) : ℚ) / 10) =
        (x : ℚ) + (w : ℚ) / 2 + ((ceilSqrt (w * h) : ℕ) : ℚ) / 2 +
        ((ceilSqrt (w * h) : ℕ) : ℚ) / 10 from by ring]
    exact upper_edge_eq _ W (by linarith)
  · rw [show (y : ℚ) + (h : ℚ) / 2 + (((ceilSqrt (w * h) : ℕ) : ℚ) / 2 +
        ((ceilSqrt (w * h) : ℕ) : ℚ) / 10) =
        (y : ℚ) + (h : ℚ) / 2 + ((ceilSqrt (w * h) : ℕ) : ℚ) / 2 +
        ((ceilSqrt (w * h) : ℕ) : ℚ) / 10 from by ring]
    exact upper_edge_eq _ H (by linarith)

lemma box_invariants (x y w h W H : ℕ) (hxW : x + w ≤ W) (hyH : y + h ≤ H) :
    0 ≤ (save_face_box (x, y, w, h) W H).1 ∧
      0 ≤ (save_face_box (x, y, w, h) W H).2.1 ∧
      (save_face_box (x, y, w, h) W H).2.2.1 ≤ (W : ℤ) ∧
      (save_face_box (x, y, w, h) W H).2.2.2 ≤ (H : ℤ) ∧
      (save_face_box (x, y, w, h) W H).1 ≤ (save_face_box (x, y, w, h) W H).2.2.1 ∧
      (save_face_box (x, y, w, h) W H).2.1 ≤ (save_face_box (x, y, w, h) W H).2.2.2 := by
  have hs0 : (0 : ℚ) ≤ ((ceilSqrt (w * h) : ℕ) : ℚ) := by positivity
  have hw0 : (0 : ℚ) ≤ (w : ℚ) := by positivity
  have hh0 : (0 : ℚ) ≤ (h : ℚ) := by positivity
  have hx0 : (0 : ℚ) ≤ (x : ℚ) := by positivity
  have hy0 : (0 : ℚ) ≤ (y : ℚ) := by positivity
  have hxW' : (x : ℚ) + w ≤ W := by exact_mod_cast hxW
  have hyH' : (y : ℚ) + h ≤ H := by exact_mod_cast hyH
  simp only [save_face_box, ceil_ite_lower, ceil_ite_upper]
  refine ⟨le_max_left _ _, le_max_left _ _, min_le_right _ _, min_le_right _ _,
    ?_, ?_⟩
  · refine max_le (le_min (Int.ceil_nonneg (by linarith)) (by positivity))
      (le_min (Int.ceil_mono (by linarith)) (Int.ceil_le.mpr ?_))
    push_cast
    linarith
  · refine max_le (le_min (Int.ceil_nonneg (by linarith)) (by positivity))
      (le_min (Int.ceil_mono (by linarith)) (Int.ceil_le.mpr ?_))
    push_cast
    linarith

/-- C1 counterexample: for the region `(200, 0, 10, 10)` — positive size, but
lying beyond the right edge of a 100×100 image — the code's crop box differs
from the spec formula "each edge … clamped to `[0, image_width]`": the code
never clamps the left edge from above, producing `x1 = 199 > 100`. -/
theorem save_face_box_spec_cex :
    save_face_box (200, 0, 10, 10) 100 100 ≠ specCropBox (200, 0, 10, 10) 100 100 := by
  have hcs : ceilSqrt (10 * 10) = 10 := by decide
  have hc1 : (⌈(-1 : ℚ)⌉ : ℤ) = -1 := by
    rw [show (-1 : ℚ) = ((-1 : ℤ) : ℚ) by norm_num, Int.ceil_intCast]
  have h1 : save_face_box (200, 0, 10, 10) 100 100 = (199, 0, 100, 11) := by
    simp only [save_face_box, hcs]
    norm_num
  have h2 : specCropBox (200, 0, 10, 10) 100 100 = (100, 0, 100, 11) := by
    simp only [specCropBox, hcs]
    norm_num [hc1]
  rw [h1, h2]
  decide

/-- C1 (amended): for regions with positive size that lie inside the image
(`x + width ≤ image_width`, `y + height ≤ image_height`), the crop box of
`save_face` coincides with the spec formula — edges `center ± (s/2 + margin)`
with `s = ceil(sqrt(width*height))`, `margin = s/10`, rounded up with `ceil`
and clamped to `[0, image_width]` / `[0, image_height]`; and for region
`(100, 100, 40, 90)` in a 500×500 image the box is `(84, 109, 156, 181)`. -/
theorem save_face_box_matches_spec :
    (∀ x y w h W H : ℕ, 1 ≤ w → 1 ≤ h → x + w ≤ W → y + h ≤ H →
        save_face_box (x, y, w, h) W H = specCropBox (x, y, w, h) W H) ∧
      save_face_box (100, 100, 40, 90) 500 500 = (84, 109, 156, 181) := by
  constructor
  · intro x y w h W H _ _ hxW hyH
    exact box_eq_spec x y w h W H hxW hyH
  · have hcs : ceilSqrt (40 * 90) = 60 := by decide
    simp only [save_face_box, hcs]
    norm_num

/-- Witness for the amended C1 at the spec's own worked example. -/
theorem save_face_box_matches_spec_witness :
    (1 ≤ 40 ∧ 1 ≤ 90 ∧ 100 + 40 ≤ 500 ∧ 100 + 90 ≤ 500) ∧
      save_face_box (100, 100, 40, 90) 500 500 =
        specCropBox (100, 100, 40, 90) 500 500 :=
  ⟨by decide, save_face_box_matches_spec.1 100 100 40 90 500 500
    (by decide) (by decide) (by decide) (by decide)⟩

/-- C2 counterexample: for the region `(200, 0, 10, 10)` in a 100×100 image —
non-negative position, positive size, positive image dimensions — the crop
box violates `x1 ≤ x2`: the code computes `x1 = 199` and `x2 = 100`. -/
theorem save_face_box_bounds_cex :
    ¬ ((save_face_box (200, 0, 10, 10) 100 100).1 ≤
        (save_face_box (200, 0, 10, 10) 100 100).2.2.1) := by
  have hcs : ceilSqrt (10 * 10) = 10 := by decide
  have h1 : save_face_box (200, 0, 10, 10) 100 100 = (199, 0, 100, 11) := by
    simp only [save_face_box, hcs]
    norm_num
  rw [h1]
  decide

/-- C2 (amended): for regions with positive size that lie inside the image
(`x + width ≤ image_width`, `y + height ≤ image_height`), the crop box
`(x1, y1, x2, y2)` of `save_face` satisfies `x1 ≤ x2`, `y1 ≤ y2`, `0 ≤ x1`,
`0 ≤ y1`, `x2 ≤ image_width`, `y2 ≤ image_height`. -/
theorem save_face_box_within_bounds (x y w h W H : ℕ) (_hw : 1 ≤ w)
    (_hh : 1 ≤ h) (hxW : x + w ≤ W) (hyH : y + h ≤ H) :
    (save_face_box (x, y, w, h) W H).1 ≤ (save_face_box (x, y, w, h) W H).2.2.1 ∧
      (save_face_box (x, y, w, h) W H).2.1 ≤ (save_face_box (x, y, w, h) W H).2.2.2 ∧
      0 ≤ (save_face_box (x, y, w, h) W H).1 ∧
      0 ≤ (save_face_box (x, y, w, h) W H).2.1 ∧
      (save_face_box (x, y, w, h) W H).2.2.1 ≤ (W : ℤ) ∧
      (save_face_box (x, y, w, h) W H).2.2.2 ≤ (H : ℤ) := by
  obtain ⟨a, b, c, d, e, f⟩ := box_invariants x y w h W H hxW hyH
  exact ⟨e, f, a, b, c, d⟩

/-- Witness for the amended C2 at the spec's clamping example: region
`(0, 0, 20, 20)` in a 100×100 image. -/
theorem save_face_box_within_bounds_witness :
    (1 ≤ 20 ∧ 0 + 20 ≤ 100) ∧
      ((save_face_box (0, 0, 20, 20) 100 100).1 ≤
          (save_face_box (0, 0, 20, 20) 100 100).2.2.1 ∧
        (save_face_box (0, 0, 20, 20) 100 100).2.1 ≤
          (save_face_box (0, 0, 20, 20) 100 100).2.2.2 ∧
        0 ≤ (save_face_box (0, 0, 20, 20) 100 100).1 ∧
        0 ≤ (save_face_box (0, 0, 20, 20) 100 100).2.1 ∧
        (save_face_box (0, 0, 20, 20) 100 100).2.2.1 ≤ ((100 : ℕ) : ℤ) ∧
        (save_face_box (0, 0, 20, 20) 100 100).2.2.2 ≤ ((100 : ℕ) : ℤ)) :=
  ⟨by decide, save_face_box_within_bounds 0 0 20 20 100 100
    (by decide) (by decide) (by decide) (by decide)⟩

/-! ## Manifest lemmas -/

/-- C3: after a run, the set of manifest lines is the set-union of the prior
manifest's lines (empty when the file was absent) and this run's
newline-terminated output paths; in particular every prior line is still
present — the extractor never removes a manifest entry. -/
theorem manifest_merge_is_union (prior : List String) (results : List String) :
    manifest_after_run (some prior) results =
        prior.toFinset ∪ (results.map (fun r => r ++ "\n")).toFinset ∧
      manifest_after_run none results =
        (results.map (fun r => r ++ "\n")).toFinset ∧
      ∀ l ∈ prior, l ∈ manifest_after_run (some prior) results := by
  refine ⟨rfl,
    by simp [manifest_after_run, read_prior_manifest, saved_faces_paths],
    fun l hl => ?_⟩
  simp only [manifest_after_run, read_prior_manifest, Finset.mem_union]
  exact Or.inl (List.mem_toFinset.mpr hl)

/-- Witness for C3 at a concrete prior manifest and run. -/
theorem manifest_merge_is_union_witness :
    "Faces/Alice/img-5.png\n" ∈
      manifest_after_run (some ["Faces/Alice/img-5.png\n"]) ["Faces/Bob/img-7.png"] :=
  (manifest_merge_is_union ["Faces/Alice/img-5.png\n"] ["Faces/Bob/img-7.png"]).2.2
    "Faces/Alice/img-5.png\n" (by decide)

/-! ## `save_face` skip-path lemmas -/

/-- C4: with `overwrite = false` and the output file already present,
`save_face` returns the existing output path
`output_dir/tag/{stem}-{base32}.png` and performs no image decode, no crop
and no file write. -/
theorem save_face_skip_no_work (stem : String) (region : ℕ × ℕ × ℕ × ℕ)
    (tag outdir : String) (resize_to imgW imgH : ℕ) :
    (save_face stem region tag outdir resize_to false true imgW imgH).1 =
        outdir ++ "/" ++ tag ++ "/" ++
          (stem ++ "-" ++ String.mk (encode_region region) ++ ".png") ∧
      (save_face stem region tag outdir resize_to false true imgW imgH).2.all
          (fun op => ! op.heavyWork) = true := by
  constructor
  · rfl
  · rfl

/-- C10: on the same skip path, `save_face` still performs exactly one
filesystem effect — the idempotent creation of `output_dir/tag_name`, which
happens before the existence check. -/
theorem save_face_skip_creates_dir (stem : String) (region : ℕ × ℕ × ℕ × ℕ)
    (tag outdir : String) (resize_to imgW imgH : ℕ) :
    (save_face stem region tag outdir resize_to false true imgW imgH).2 =
      [FsOp.mkdir (outdir ++ "/" ++ tag)] := rfl

/-! ## Region-parsing lemmas -/

lemma dropWhile_append_of_all (p : Char → Bool) (n l : List Char)
    (hn : ∀ c ∈ n, p c = true) : (n ++ l).dropWhile p = l.dropWhile p := by
  induction n with
  | nil => rfl
  | cons c cs ih =>
      rw [List.cons_append, List.dropWhile_cons,
        if_pos (hn c (List.mem_cons_self c cs))]
      exact ih (fun d hd => hn d (List.mem_cons_of_mem c hd))

lemma takeWhile_append_stop (p : Char → Bool) (d : List Char) (x : Char)
    (r : List Char) (hd : ∀ c ∈ d, p c = true) (hx : p x = false) :
    (d ++ x :: r).takeWhile p = d := by
  induction d with
  | nil =>
      rw [List.nil_append, List.takeWhile_cons, hx]
      simp
  | cons c cs ih =>
      rw [List.cons_append, List.takeWhile_cons,
        hd c (List.mem_cons_self c cs)]
      simp only [if_true]
      rw [ih (fun e he => hd e (List.mem_cons_of_mem c he))]

lemma dropWhile_append_stop (p : Char → Bool) (d : List Char) (x : Char)
    (r : List Char) (hd : ∀ c ∈ d, p c = true) (hx : p x = false) :
    (d ++ x :: r).dropWhile p = x :: r := by
  induction d with
  | nil =>
      rw [List.nil_append, List.dropWhile_cons, hx]
      simp
  | cons c cs ih =>
      rw [List.cons_append, List.dropWhile_cons,
        if_pos (hd c (List.mem_cons_self c cs))]
      exact ih (fun e he => hd e (List.mem_cons_of_mem c he))

lemma findall_eq_some (s : List Char) (pr : List Char × List Char)
    (h : tryMatch s = some pr) : findall s = pr.1 :: findall pr.2 := by
  rw [findall.eq_def]
  split
  · next pr' heq =>
      rw [h] at heq
      cases heq
      rfl
  · next heq =>
      rw [h] at heq
      cases heq

lemma findall_nil : findall [] = [] := by
  rw [findall.eq_def]
  rfl

lemma findall_cons_of_none (c : Char) (l : List Char)
    (h : tryMatch (c :: l) = none) : findall (c :: l) = findall l := by
  rw [findall.eq_def]
  split
  · next pr' heq =>
      rw [h] at heq
      cases heq
  · rfl

lemma tryMatch_attr (n d r : List Char) (hn : ∀ c ∈ n, isWordChar c = true)
    (hd : ∀ c ∈ d, Char.isDigit c = true) :
    tryMatch (n ++ '=' :: '"' :: (d ++ '"' :: r)) = some (d, r) := by
  unfold tryMatch
  rw [dropWhile_append_of_all isWordChar n ('=' :: '"' :: (d ++ '"' :: r)) hn]
  rw [show List.dropWhile isWordChar ('=' :: '"' :: (d ++ '"' :: r)) =
    '=' :: '"' :: (d ++ '"' :: r) from rfl]
  rw [show List.take 2 ('=' :: '"' :: (d ++ '"' :: r)) = ['=', '"'] from rfl]
  rw [if_pos rfl]
  rw [show List.drop 2 ('=' :: '"' :: (d ++ '"' :: r)) = d ++ '"' :: r from rfl]
  rw [dropWhile_append_stop Char.isDigit d '"' r hd (by decide)]
  rw [show List.take 1 ('"' :: r) = ['"'] from rfl]
  rw [if_pos rfl]
  rw [takeWhile_append_stop Char.isDigit d '"' r hd (by decide)]
  rw [show List.drop 1 ('"' :: r) = r from rfl]

lemma findall_attr_sp (n d r : List Char) (hn : ∀ c ∈ n, isWordChar c = true)
    (hd : ∀ c ∈ d, Char.isDigit c = true) :
    findall (n ++ '=' :: '"' :: (d ++ '"' :: (' ' :: r))) = d :: findall r := by
  rw [findall_eq_some _ (d, ' ' :: r) (tryMatch_attr n d (' ' :: r) hn hd)]
  rw [findall_cons_of_none ' ' r rfl]

lemma findall_attr_close (n d : List Char) (hn : ∀ c ∈ n, isWordChar c = true)
    (hd : ∀ c ∈ d, Char.isDigit c = true) :
    findall (n ++ '=' :: '"' :: (d ++ '"' :: ('/' :: '>' :: []))) = [d] := by
  rw [findall_eq_some _ (d, '/' :: '>' :: []) (tryMatch_attr n d ('/' :: '>' :: []) hn hd)]
  rw [findall_cons_of_none '/' ('>' :: []) rfl]
  rw [findall_cons_of_none '>' [] rfl]
  rw [findall_nil]

lemma findall_rect_header (l : List Char) :
    findall ('<' :: 'r' :: 'e' :: 'c' :: 't' :: ' ' :: l) = findall l := by
  rw [findall_cons_of_none '<' ('r' :: 'e' :: 'c' :: 't' :: ' ' :: l) rfl]
  rw [findall_cons_of_none 'r' ('e' :: 'c' :: 't' :: ' ' :: l) rfl]
  rw [findall_cons_of_none 'e' ('c' :: 't' :: ' ' :: l) rfl]
  rw [findall_cons_of_none 'c' ('t' :: ' ' :: l) rfl]
  rw [findall_cons_of_none 't' (' ' :: l) rfl]
  rw [findall_cons_of_none ' ' l rfl]

lemma parse_rect_region (a₁ v₁ a₂ v₂ a₃ v₃ a₄ v₄ : List Char)
    (h₁ : ∀ c ∈ a₁, isWordChar c = true) (g₁ : ∀ c ∈ v₁, Char.isDigit c = true)
    (h₂ : ∀ c ∈ a₂, isWordChar c = true) (g₂ : ∀ c ∈ v₂, Char.isDigit c = true)
    (h₃ : ∀ c ∈ a₃, isWordChar c = true) (g₃ : ∀ c ∈ v₃, Char.isDigit c = true)
    (h₄ : ∀ c ∈ a₄, isWordChar c = true) (g₄ : ∀ c ∈ v₄, Char.isDigit c = true) :
    parse_rect (rect_region_string a₁ v₁ a₂ v₂ a₃ v₃ a₄ v₄) =
      [intOfDigits v₁, intOfDigits v₂, intOfDigits v₃, intOfDigits v₄] := by
  unfold parse_rect rect_region_string
  rw [findall_rect_header]
  rw [findall_attr_sp a₁ v₁ _ h₁ g₁]
  rw [findall_attr_sp a₂ v₂ _ h₂ g₂]
  rw [findall_attr_sp a₃ v₃ _ h₃ g₃]
  rw [findall_attr_close a₄ v₄ h₄ g₄]
  rfl

/-- C6 counterexample: for the reordered region string
`<rect y="2" x="1" width="3" height="4"/>` (the region with `x = 1`, `y = 2`,
`width = 3`, `height = 4`), `parse_rect` returns `[2, 1, 3, 4]` — the quoted
values in order of appearance — not the attribute-ordered `[1, 2, 3, 4]`: the
regular expression never inspects the attribute names. -/
theorem parse_rect_reorder_cex :
    rect_region_string "y".toList "2".toList "x".toList "1".toList
        "width".toList "3".toList "height".toList "4".toList =
      "<rect y=\"2\" x=\"1\" width=\"3\" height=\"4\"/>".toList ∧
      parse_rect (rect_region_string "y".toList "2".toList "x".toList "1".toList
        "width".toList "3".toList "height".toList "4".toList) = [2, 1, 3, 4] ∧
      ([2, 1, 3, 4] : List ℕ) ≠ [1, 2, 3, 4] := by
  refine ⟨by decide, ?_, by decide⟩
  rw [parse_rect_region "y".toList "2".toList "x".toList "1".toList
    "width".toList "3".toList "height".toList "4".toList
    (by decide) (by decide) (by decide) (by decide)
    (by decide) (by decide) (by decide) (by decide)]
  rfl

/-- C6 (amended): for every well-formed region string with four
`name="digits"` attributes, `parse_rect` returns the four quoted integer
values in their order of appearance in the string — the attribute names are
ignored, so reordering the attributes permutes the result instead of leaving
it invariant; only when the attributes appear in the order
`x, y, width, height` is the result `(x, y, width, height)`. -/
theorem parse_rect_appearance_order (a₁ v₁ a₂ v₂ a₃ v₃ a₄ v₄ : List Char)
    (h₁ : ∀ c ∈ a₁, isWordChar c = true) (g₁ : ∀ c ∈ v₁, Char.isDigit c = true)
    (h₂ : ∀ c ∈ a₂, isWordChar c = true) (g₂ : ∀ c ∈ v₂, Char.isDigit c = true)
    (h₃ : ∀ c ∈ a₃, isWordChar c = true) (g₃ : ∀ c ∈ v₃, Char.isDigit c = true)
    (h₄ : ∀ c ∈ a₄, isWordChar c = true) (g₄ : ∀ c ∈ v₄, Char.isDigit c = true) :
    parse_rect (rect_region_string a₁ v₁ a₂ v₂ a₃ v₃ a₄ v₄) =
      [intOfDigits v₁, intOfDigits v₂, intOfDigits v₃, intOfDigits v₄] :=
  parse_rect_region a₁ v₁ a₂ v₂ a₃ v₃ a₄ v₄ h₁ g₁ h₂ g₂ h₃ g₃ h₄ g₄

/-- Witness for the amended C6 at the documented attribute order:
`<rect x="100" y="100" width="40" height="90"/>`. -/
theorem parse_rect_appearance_order_witness :
    parse_rect (rect_region_string "x".toList "100".toList "y".toList
        "100".toList "width".toList "40".toList "height".toList "90".toList) =
      [intOfDigits "100".toList, intOfDigits "100".toList,
        intOfDigits "40".toList, intOfDigits "90".toList] :=
  parse_rect_appearance_order "x".toList "100".toList "y".toList "100".toList
    "width".toList "40".toList "height".toList "90".toList
    (by decide) (by decide) (by decide) (by decide)
    (by decide) (by decide) (by decide) (by decide)
